import Mathlib

/-!
Verification development for the srcomp competition-management engine.

Times and durations are modelled as integer seconds, game points as
rationals (the source compares them as Python numbers), and fallible
operations return `Except`.  Modules of the repository that are not
present under `src/` are modelled from the specification; each such
definition carries a doc comment starting `Modelled from the spec:`.
-/

/-- Modelled from the spec: `sr/comp/scores.py` (absent from src/) defines
`TeamScore` as a pair of a rational `league_points` and an integer
`game_points`. -/
structure TeamScore where
  league_points : Rat
  game_points : Int
deriving DecidableEq, Repr

namespace TeamScore

/-- Modelled from the spec: the strict order on `TeamScore`: higher
`league_points` first, `game_points` as tiebreak. -/
def lt (x y : TeamScore) : Prop :=
  x.league_points < y.league_points ∨
    (x.league_points = y.league_points ∧ x.game_points < y.game_points)

instance (x y : TeamScore) : Decidable (x.lt y) := by
  unfold lt; infer_instance

/-- Modelled from the spec: the reflexive order; two `TeamScore`s with
identical fields compare equal. -/
def le (x y : TeamScore) : Prop := x.lt y ∨ x = y

instance (x y : TeamScore) : Decidable (x.le y) := by
  unfold le; infer_instance

theorem lt_asymmetric {x y : TeamScore} (h : x.lt y) (h' : y.lt x) : False := by
  rcases x with ⟨lx, gx⟩
  rcases y with ⟨ly, gy⟩
  simp only [lt] at h h'
  rcases h with h | ⟨he, h⟩ <;> rcases h' with h' | ⟨he', h'⟩ <;> linarith

theorem lt_irreflexive {x : TeamScore} (h : x.lt x) : False :=
  lt_asymmetric h h

theorem lt_total {x y : TeamScore} (hne : x ≠ y) : x.lt y ∨ y.lt x := by
  rcases x with ⟨lx, gx⟩
  rcases y with ⟨ly, gy⟩
  simp only [lt]
  rcases lt_trichotomy lx ly with h | h | h
  · exact Or.inl (Or.inl h)
  · rcases lt_trichotomy gx gy with h2 | h2 | h2
    · exact Or.inl (Or.inr ⟨h, h2⟩)
    · exact absurd (by simp [h, h2]) hne
    · exact Or.inr (Or.inr ⟨h.symm, h2⟩)
  · exact Or.inr (Or.inl h)

end TeamScore

/-- Error raised by Python when rich-comparing unorderable values. -/
inductive PyOrderError where
  | unorderable
deriving DecidableEq, Repr

/-- Modelled from the spec: ordering a `TeamScore` against `None` (null) is
an error.  `op` stands for any of the rich comparisons `<`, `<=`, `>`,
`>=`; only two actual `TeamScore`s can be compared. -/
def richCompare (op : TeamScore → TeamScore → Bool) :
    Option TeamScore → Option TeamScore → Except PyOrderError Bool
  | some x, some y => .ok (op x y)
  | _, _ => .error .unorderable

/-- C8: for all `TeamScore`s `x, y`, `x ≤ y ∧ y ≤ x ↔ x = y`; the order is
total (modulo equal `TeamScore`s) and is determined lexicographically by
`(league_points, game_points)` with higher league points ranked greater and
game points as tiebreak; `<` is the strict part of `≤`; and any rich order
comparison between a `TeamScore` and null is an error. -/
theorem teamscore_strict_total_order_modulo_eq :
    (∀ x y : TeamScore, (x.le y ∧ y.le x) ↔ x = y) ∧
    (∀ x y : TeamScore, x.le y ∨ y.le x) ∧
    (∀ x y : TeamScore, x.lt y ↔ (x.le y ∧ ¬ y.le x)) ∧
    (∀ x y : TeamScore, x.league_points < y.league_points → x.lt y) ∧
    (∀ x y : TeamScore,
      x.league_points = y.league_points → x.game_points < y.game_points →
        x.lt y) ∧
    (∀ (op : TeamScore → TeamScore → Bool) (a : Option TeamScore),
      richCompare op none a = .error .unorderable ∧
      richCompare op a none = .error .unorderable) := by
  refine ⟨?_, ?_, ?_, ?_, ?_, ?_⟩
  · intro x y
    constructor
    · rintro ⟨hxy | rfl, hyx | h⟩
      · exact absurd hyx (fun h' => TeamScore.lt_asymmetric hxy h')
      · exact h.symm
      · exact absurd hyx TeamScore.lt_irreflexive
      · rfl
    · rintro rfl
      exact ⟨Or.inr rfl, Or.inr rfl⟩
  · intro x y
    by_cases hne : x = y
    · exact Or.inl (Or.inr hne)
    · rcases TeamScore.lt_total hne with h | h
      · exact Or.inl (Or.inl h)
      · exact Or.inr (Or.inl h)
  · intro x y
    constructor
    · intro h
      refine ⟨Or.inl h, ?_⟩
      rintro (h' | rfl)
      · exact TeamScore.lt_asymmetric h h'
      · exact TeamScore.lt_irreflexive h
    · rintro ⟨hle | rfl, hnle⟩
      · exact hle
      · exact absurd (Or.inr rfl) hnle
  · intro x y h
    exact Or.inl h
  · intro x y he hg
    exact Or.inr ⟨he, hg⟩
  · intro op a
    refine ⟨rfl, ?_⟩
    cases a <;> rfl

/-- Modelled from the spec: the combined `Scores` object in
`sr/comp/scores.py` (absent from src/) computes `last_scored_match` by
starting from `None` and overwriting in turn with the league, knockout and
tiebreaker values whenever those are set, so later phases take precedence;
behaviour pinned by `src/tests/test_scores.py` (`LastScoredMatchTests`). -/
def lastScoredMatch (league knockout tiebreaker : Option Nat) : Option Nat :=
  let last : Option Nat := none
  let last := match league with
    | some n => some n
    | none => last
  let last := match knockout with
    | some n => some n
    | none => last
  match tiebreaker with
  | some n => some n
  | none => last

/-- C10: `last_scored_match` of the combined `Scores` object is selected by
phase precedence, not numeric maximum: the tiebreaker value whenever set,
otherwise the knockout value whenever set, otherwise the league value; in
particular league 42, knockout 37, tiebreaker 13 yields 13. -/
theorem scores_last_scored_match_phase_precedence :
    (∀ (l k : Option Nat) (n : Nat), lastScoredMatch l k (some n) = some n) ∧
    (∀ (l : Option Nat) (n : Nat), lastScoredMatch l (some n) none = some n) ∧
    (∀ l : Option Nat, lastScoredMatch l none none = l) ∧
    lastScoredMatch (some 42) (some 37) (some 13) = some 13 := by
  refine ⟨?_, ?_, ?_, rfl⟩
  · intro l k n
    cases l <;> cases k <;> rfl
  · intro l n
    cases l <;> rfl
  · intro l
    cases l <;> rfl

/-- A timed delay (`sr/comp/match_period.py`): the delay takes effect at its
`time`.  Durations and instants are integer seconds. -/
structure Delay where
  delay : Int
  time : Int
deriving DecidableEq, Repr

/-- The scheduling fields of a `MatchPeriod` (`sr/comp/match_period.py`);
`end_time` is the last time a new match may start, `max_end_time` allows
overrun only for delay-induced lateness. -/
structure PeriodTimes where
  start_time : Int
  end_time : Int
  max_end_time : Int
deriving DecidableEq, Repr

/-- Modelled from the spec: the error signalled by the clock
(`sr/comp/match_period_clock.py`, absent from src/) when the cursor has
left the period. -/
inductive OutOfTimeException where
  | outOfTime
deriving DecidableEq, Repr

instance {ε α : Type} [DecidableEq ε] [DecidableEq α] :
    DecidableEq (Except ε α) := fun a b =>
  match a, b with
  | .ok x, .ok y => decidable_of_iff (x = y) (by simp)
  | .error x, .error y => decidable_of_iff (x = y) (by simp)
  | .ok _, .error _ => isFalse (fun h => Except.noConfusion h)
  | .error _, .ok _ => isFalse (fun h => Except.noConfusion h)

/-- Modelled from the spec: state of `MatchPeriodClock`
(`sr/comp/match_period_clock.py`, absent from src/): the enclosing period,
the pending (time-sorted) delays, the cursor (inclusive of all applied
delays) and the total applied delay. -/
structure MatchPeriodClock where
  period : PeriodTimes
  pending : List Delay
  cursor : Int
  total_delay : Int
deriving DecidableEq, Repr

/-- Modelled from the spec: repeatedly absorb any pending delay whose
`time ≤ cursor` by adding that delay's duration to the cursor (and to the
running total) and removing it from the pending set. -/
def absorbDelays : List Delay → Int → Int → List Delay × Int × Int
  | [], cursor, total => ([], cursor, total)
  | d :: rest, cursor, total =>
    if d.time ≤ cursor then absorbDelays rest (cursor + d.delay) (total + d.delay)
    else (d :: rest, cursor, total)

/-- The time-sorted order on delays used by the clock. -/
def Delay.timeLE (a b : Delay) : Prop := a.time ≤ b.time

instance : DecidableRel Delay.timeLE := fun a b =>
  inferInstanceAs (Decidable (a.time ≤ b.time))

instance : IsTotal Delay Delay.timeLE := ⟨fun a b => le_total a.time b.time⟩

instance : IsTrans Delay Delay.timeLE := ⟨fun _ _ _ => le_trans⟩

/-- Modelled from the spec: clock construction: keep the delays at or after
the period's start, sorted by time; the cursor starts at the period start
and immediately absorbs any delays occurring there (behaviour pinned by
`src/tests/test_match_period_clock.py`). -/
def MatchPeriodClock.init (period : PeriodTimes) (delays : List Delay) :
    MatchPeriodClock :=
  let pending := List.insertionSort Delay.timeLE
    (delays.filter (fun d => decide (period.start_time ≤ d.time)))
  let s := absorbDelays pending period.start_time 0
  ⟨period, s.1, s.2.1, s.2.2⟩

/-- Modelled from the spec: `advance(d)` sets `cursor ← cursor + d`, then
absorbs every pending delay whose `time ≤ cursor`. -/
def MatchPeriodClock.advance_time (clock : MatchPeriodClock) (d : Int) :
    MatchPeriodClock :=
  let s := absorbDelays clock.pending (clock.cursor + d) clock.total_delay
  ⟨clock.period, s.1, s.2.1, s.2.2⟩

/-- Modelled from the spec: the cursor is within the period when it is at
most `end_time`, or would have been absent the applied delays and is at
most `max_end_time`. -/
def MatchPeriodClock.inPeriod (clock : MatchPeriodClock) : Prop :=
  clock.cursor ≤ clock.period.end_time ∨
    (clock.cursor - clock.total_delay ≤ clock.period.end_time ∧
      clock.cursor ≤ clock.period.max_end_time)

instance (clock : MatchPeriodClock) : Decidable clock.inPeriod := by
  unfold MatchPeriodClock.inPeriod; infer_instance

/-- Modelled from the spec: `current_time` returns the cursor when it is
within the period and fails with `OutOfTime` otherwise. -/
def MatchPeriodClock.current_time (clock : MatchPeriodClock) :
    Except OutOfTimeException Int :=
  if clock.inPeriod then .ok clock.cursor else .error .outOfTime

theorem absorbDelays_split (l : List Delay) (c t : Int)
    (hs : l.Sorted Delay.timeLE) :
    ∃ absorbed : List Delay,
      l = absorbed ++ (absorbDelays l c t).1 ∧
      (absorbDelays l c t).2.1 = c + (absorbed.map Delay.delay).sum ∧
      (absorbDelays l c t).2.2 = t + (absorbed.map Delay.delay).sum ∧
      ∀ p ∈ (absorbDelays l c t).1, ¬ p.time ≤ (absorbDelays l c t).2.1 := by
  induction l generalizing c t with
  | nil => exact ⟨[], by simp [absorbDelays]⟩
  | cons d rest ih =>
    by_cases hd : d.time ≤ c
    · have hrec : absorbDelays (d :: rest) c t
          = absorbDelays rest (c + d.delay) (t + d.delay) := by
        simp [absorbDelays, hd]
      obtain ⟨abs1, h1, h2, h3, h4⟩ :=
        ih (c + d.delay) (t + d.delay) (List.Sorted.of_cons hs)
      refine ⟨d :: abs1, ?_, ?_, ?_, ?_⟩
      · rw [hrec, List.cons_append, ← h1]
      · rw [hrec, h2]; simp; ring
      · rw [hrec, h3]; simp; ring
      · rw [hrec]; exact h4
    · have hrec : absorbDelays (d :: rest) c t = (d :: rest, c, t) := by
        simp [absorbDelays, hd]
      refine ⟨[], by simp [hrec], by simp [hrec], by simp [hrec], ?_⟩
      rw [hrec]
      intro p hp
      rcases List.mem_cons.mp hp with rfl | hmem
      · exact hd
      · have := (List.sorted_cons.mp hs).1 p hmem
        unfold Delay.timeLE at this
        intro hle
        exact hd (le_trans this hle)

theorem init_pending_sorted (p : PeriodTimes) (ds : List Delay) :
    (MatchPeriodClock.init p ds).pending.Sorted Delay.timeLE := by
  have hs := List.sorted_insertionSort Delay.timeLE
    (ds.filter (fun d => decide (p.start_time ≤ d.time)))
  obtain ⟨absorbed, h1, -, -, -⟩ := absorbDelays_split _ p.start_time 0 hs
  have hEq : (MatchPeriodClock.init p ds).pending =
      (absorbDelays (List.insertionSort Delay.timeLE
        (ds.filter (fun d => decide (p.start_time ≤ d.time))))
        p.start_time 0).1 := rfl
  rw [hEq]
  rw [h1] at hs
  exact (List.pairwise_append.mp hs).2.1

theorem advance_time_pending_sorted (c : MatchPeriodClock) (d : Int)
    (h : c.pending.Sorted Delay.timeLE) :
    ((c.advance_time d).pending).Sorted Delay.timeLE := by
  obtain ⟨absorbed, h1, -, -, -⟩ :=
    absorbDelays_split c.pending (c.cursor + d) c.total_delay h
  have hEq : (c.advance_time d).pending =
      (absorbDelays c.pending (c.cursor + d) c.total_delay).1 := rfl
  rw [hEq]
  rw [h1] at h
  exact (List.pairwise_append.mp h).2.1

/-- C2: `advance(d)` adds `d` to the cursor and then absorbs every pending
delay whose `time ≤ cursor` (the pending list stays time-sorted: it is
sorted by construction and `advance` keeps a suffix), the pending set
losing exactly the absorbed
prefix and the cursor and total delay growing by the sum of the absorbed
delays (so overlapping delays compound); concretely, over period `[0,10]`,
touching delays `[(time=1,delay=1),(time=2,delay=1)]` give cursor 4 after
`advance(2)` and overlapping delays `[(time=1,delay=2),(time=2,delay=1)]`
give cursor 5 after `advance(2)`. -/
theorem clock_advance_time_absorbs_delays (clock : MatchPeriodClock)
    (d : Int) (hs : clock.pending.Sorted Delay.timeLE) :
    (∃ absorbed : List Delay,
      clock.pending = absorbed ++ (clock.advance_time d).pending ∧
      (clock.advance_time d).cursor =
        clock.cursor + d + (absorbed.map Delay.delay).sum ∧
      (clock.advance_time d).total_delay =
        clock.total_delay + (absorbed.map Delay.delay).sum ∧
      ∀ p ∈ (clock.advance_time d).pending,
        ¬ p.time ≤ (clock.advance_time d).cursor) ∧
    ((MatchPeriodClock.init ⟨0, 10, 10⟩
        [⟨1, 1⟩, ⟨1, 2⟩]).advance_time 2).cursor = 4 ∧
    ((MatchPeriodClock.init ⟨0, 10, 10⟩
        [⟨2, 1⟩, ⟨1, 2⟩]).advance_time 2).cursor = 5 := by
  refine ⟨?_, by decide, by decide⟩
  obtain ⟨absorbed, h1, h2, h3, h4⟩ :=
    absorbDelays_split clock.pending (clock.cursor + d) clock.total_delay hs
  exact ⟨absorbed, h1, h2, h3, h4⟩

/-- Witness for C2 at the concrete overlapping-delays clock of
`src/tests/test_match_period_clock.py`. -/
theorem clock_advance_time_absorbs_delays_witness :
    ∃ absorbed : List Delay,
      (MatchPeriodClock.init ⟨0, 10, 10⟩ [⟨2, 1⟩, ⟨1, 2⟩]).pending =
        absorbed ++
          ((MatchPeriodClock.init ⟨0, 10, 10⟩
            [⟨2, 1⟩, ⟨1, 2⟩]).advance_time 2).pending ∧
      ((MatchPeriodClock.init ⟨0, 10, 10⟩
          [⟨2, 1⟩, ⟨1, 2⟩]).advance_time 2).cursor =
        (MatchPeriodClock.init ⟨0, 10, 10⟩ [⟨2, 1⟩, ⟨1, 2⟩]).cursor + 2 +
          (absorbed.map Delay.delay).sum ∧
      ((MatchPeriodClock.init ⟨0, 10, 10⟩
          [⟨2, 1⟩, ⟨1, 2⟩]).advance_time 2).total_delay =
        (MatchPeriodClock.init ⟨0, 10, 10⟩ [⟨2, 1⟩, ⟨1, 2⟩]).total_delay +
          (absorbed.map Delay.delay).sum ∧
      ∀ p ∈ ((MatchPeriodClock.init ⟨0, 10, 10⟩
          [⟨2, 1⟩, ⟨1, 2⟩]).advance_time 2).pending,
        ¬ p.time ≤ ((MatchPeriodClock.init ⟨0, 10, 10⟩
          [⟨2, 1⟩, ⟨1, 2⟩]).advance_time 2).cursor :=
  (clock_advance_time_absorbs_delays
    (MatchPeriodClock.init ⟨0, 10, 10⟩ [⟨2, 1⟩, ⟨1, 2⟩]) 2 (by decide)).1

/-- C3: `current_time` returns the cursor exactly when the cursor is within
the period — `cursor ≤ end_time`, or the cursor would have been within the
period absent the applied delays and `cursor ≤ max_end_time` — and fails
with `OutOfTime` otherwise; over-advancing without delays to
`max_end_time` (period `[0,1]`, max end 2, advance 2) is out of time,
while reaching `max_end_time` purely through delays (delay 1 at time 1,
advance 1) is not. -/
theorem clock_current_time_within_period :
    (∀ clock : MatchPeriodClock,
      (clock.current_time = .ok clock.cursor ↔
        (clock.cursor ≤ clock.period.end_time ∨
          (clock.cursor - clock.total_delay ≤ clock.period.end_time ∧
            clock.cursor ≤ clock.period.max_end_time))) ∧
      (clock.current_time = .error .outOfTime ↔
        ¬ (clock.cursor ≤ clock.period.end_time ∨
          (clock.cursor - clock.total_delay ≤ clock.period.end_time ∧
            clock.cursor ≤ clock.period.max_end_time)))) ∧
    ((MatchPeriodClock.init ⟨0, 1, 2⟩ []).advance_time 2).current_time =
      .error .outOfTime ∧
    ((MatchPeriodClock.init ⟨0, 1, 2⟩ [⟨1, 1⟩]).advance_time 1).current_time =
      .ok 2 := by
  refine ⟨?_, by decide, by decide⟩
  intro clock
  unfold MatchPeriodClock.current_time MatchPeriodClock.inPeriod
  by_cases hin : clock.cursor ≤ clock.period.end_time ∨
      (clock.cursor - clock.total_delay ≤ clock.period.end_time ∧
        clock.cursor ≤ clock.period.max_end_time)
  · rw [if_pos hin]
    exact ⟨⟨fun _ => hin, fun _ => rfl⟩,
      ⟨fun h => Except.noConfusion h, fun hn => absurd hin hn⟩⟩
  · rw [if_neg hin]
    exact ⟨⟨fun h => Except.noConfusion h, fun hi => absurd hi hin⟩,
      ⟨fun _ => hin, fun _ => rfl⟩⟩

namespace KnockoutScores

/-- Modelled from the spec: the game points a knockout match awarded to a
team, looked up in the match's ordered points mapping
(`sr/comp/scores.py`, absent from src/). -/
def pts (mp : List (String × Rat)) (t : String) : Rat :=
  (mp.lookup t).getD 0

/-- Modelled from the spec: the league position of a team; teams absent
from the league mapping rank together behind all of its members. -/
def leaguePos (lp : List (String × Nat)) (t : String) : Nat :=
  (lp.lookup t).getD lp.length

/-- Modelled from the spec: team `u` ranks strictly ahead of team `v`
within a knockout match when it has more game points or, on a game-points
tie, a smaller (better) league position. -/
def beats (mp : List (String × Rat)) (lp : List (String × Nat))
    (u v : String) : Bool :=
  decide (pts mp v < pts mp u) ||
    (decide (pts mp u = pts mp v) && decide (leaguePos lp u < leaguePos lp v))

/-- Modelled from the spec: a team's resolved position: one more than the
number of teams of the match ranking strictly ahead of it (teams with
identical game points and league position would share). -/
def resolvedRank (mp : List (String × Rat)) (lp : List (String × Nat))
    (t : String) : Nat :=
  1 + (mp.map Prod.fst).countP (fun u => beats mp lp u t)

/-- Modelled from the spec: `KnockoutScores.calculate_ranking`: the teams
of the match ordered best first, each paired with its resolved position. -/
def calculate_ranking (mp : List (String × Rat))
    (lp : List (String × Nat)) : List (String × Nat) :=
  (List.insertionSort (fun u v => beats mp lp v u = false)
      (mp.map Prod.fst)).map
    (fun t => (t, resolvedRank mp lp t))

theorem beats_irrefl (mp : List (String × Rat)) (lp : List (String × Nat))
    (t : String) : beats mp lp t t = false := by
  simp [beats]

theorem beats_trans {mp : List (String × Rat)} {lp : List (String × Nat)}
    {a b c : String} (h1 : beats mp lp a b = true)
    (h2 : beats mp lp b c = true) : beats mp lp a c = true := by
  simp only [beats, Bool.or_eq_true, Bool.and_eq_true, decide_eq_true_eq]
    at h1 h2 ⊢
  rcases h1 with h1 | ⟨h1e, h1l⟩ <;> rcases h2 with h2 | ⟨h2e, h2l⟩
  · exact Or.inl (lt_trans h2 h1)
  · exact Or.inl (h2e ▸ h1)
  · exact Or.inl (h1e ▸ h2)
  · exact Or.inr ⟨h1e.trans h2e, lt_trans h1l h2l⟩

theorem beats_total {mp : List (String × Rat)} {lp : List (String × Nat)}
    {u v : String}
    (heq : pts mp u = pts mp v → leaguePos lp u ≠ leaguePos lp v) :
    beats mp lp u v = true ∨ beats mp lp v u = true := by
  simp only [beats, Bool.or_eq_true, Bool.and_eq_true, decide_eq_true_eq]
  rcases lt_trichotomy (pts mp u) (pts mp v) with h | h | h
  · exact Or.inr (Or.inl h)
  · rcases Nat.lt_trichotomy (leaguePos lp u) (leaguePos lp v) with h2 | h2 | h2
    · exact Or.inl (Or.inr ⟨h, h2⟩)
    · exact absurd h2 (heq h)
    · exact Or.inr (Or.inr ⟨h.symm, h2⟩)
  · exact Or.inl (Or.inl h)

end KnockoutScores

theorem countP_le_of_imp {α : Type} {l : List α} {p q : α → Bool}
    (himp : ∀ a ∈ l, p a = true → q a = true) : l.countP p ≤ l.countP q := by
  induction l with
  | nil => simp
  | cons x xs ih =>
    have ihs := ih (fun a ha hp => himp a (List.mem_cons_of_mem x ha) hp)
    simp only [List.countP_cons]
    by_cases hpx : p x = true
    · have hqx := himp x (List.mem_cons_self x xs) hpx
      rw [if_pos hpx, if_pos hqx]
      omega
    · rw [if_neg hpx]
      by_cases hqx : q x = true
      · rw [if_pos hqx]; omega
      · rw [if_neg hqx]; omega

theorem countP_lt_of_witness {α : Type} {l : List α} {p q : α → Bool}
    {x : α} (hx : x ∈ l) (hpx : p x = false) (hqx : q x = true)
    (himp : ∀ a ∈ l, p a = true → q a = true) :
    l.countP p < l.countP q := by
  induction l with
  | nil => cases hx
  | cons y ys ih =>
    have himps : ∀ a ∈ ys, p a = true → q a = true :=
      fun a ha hp => himp a (List.mem_cons_of_mem _ ha) hp
    simp only [List.countP_cons]
    rcases List.mem_cons.mp hx with rfl | hmem
    · have hle : ys.countP p ≤ ys.countP q := countP_le_of_imp himps
      rw [if_neg (by simp [hpx]), if_pos hqx]
      omega
    · have hrec := ih hmem himps
      by_cases hpy : p y = true
      · have hqy := himp y (List.mem_cons_self y ys) hpy
        rw [if_pos hpy, if_pos hqy]
        omega
      · rw [if_neg hpy]
        by_cases hqy : q y = true
        · rw [if_pos hqy]; omega
        · rw [if_neg hqy]; omega

theorem countP_lt_length_of_witness {α : Type} {l : List α} {p : α → Bool}
    {x : α} (hx : x ∈ l) (hpx : p x = false) : l.countP p < l.length := by
  have := countP_lt_of_witness (q := fun _ => true) hx hpx rfl
    (fun a _ _ => rfl)
  simpa using this

namespace KnockoutScores

theorem resolvedRank_lt_of_beats {mp : List (String × Rat)}
    {lp : List (String × Nat)} {u v : String}
    (hu : u ∈ mp.map Prod.fst) (hb : beats mp lp u v = true) :
    resolvedRank mp lp u < resolvedRank mp lp v := by
  unfold resolvedRank
  have h := countP_lt_of_witness (l := mp.map Prod.fst)
    (p := fun w => beats mp lp w u) (q := fun w => beats mp lp w v)
    hu (beats_irrefl mp lp u) hb
    (fun a _ hp => beats_trans hp hb)
  omega

theorem resolvedRank_le_length {mp : List (String × Rat)}
    {lp : List (String × Nat)} {t : String} (ht : t ∈ mp.map Prod.fst) :
    resolvedRank mp lp t ≤ mp.length := by
  unfold resolvedRank
  have h := countP_lt_length_of_witness (p := fun w => beats mp lp w t)
    ht (beats_irrefl mp lp t)
  have hlen : (mp.map Prod.fst).length = mp.length := List.length_map mp Prod.fst
  omega

end KnockoutScores

/-- C1: for every scored knockout match whose teams carry pairwise distinct
league positions on game-points ties, `KnockoutScores.calculate_ranking`
assigns resolved positions forming a bijection onto `{1..|teams|}` (the
multiset of emitted positions is a permutation of `1..n`, with every team
paired with its resolved position), and any game-points tie is broken so
that the team with the smaller (better) league rank receives the smaller
(better) resolved position. -/
theorem knockout_calculate_ranking_bijection
    (mp : List (String × Rat)) (lp : List (String × Nat))
    (hnd : (mp.map Prod.fst).Nodup)
    (hinj : ∀ u ∈ mp.map Prod.fst, ∀ v ∈ mp.map Prod.fst, u ≠ v →
      KnockoutScores.pts mp u = KnockoutScores.pts mp v →
      KnockoutScores.leaguePos lp u ≠ KnockoutScores.leaguePos lp v) :
    ((KnockoutScores.calculate_ranking mp lp).map Prod.snd).Perm
      (List.range' 1 mp.length) ∧
    (∀ t ∈ mp.map Prod.fst,
      (t, KnockoutScores.resolvedRank mp lp t) ∈
        KnockoutScores.calculate_ranking mp lp) ∧
    (∀ u ∈ mp.map Prod.fst, ∀ v ∈ mp.map Prod.fst,
      KnockoutScores.pts mp u = KnockoutScores.pts mp v →
      KnockoutScores.leaguePos lp u < KnockoutScores.leaguePos lp v →
      KnockoutScores.resolvedRank mp lp u <
        KnockoutScores.resolvedRank mp lp v) := by
  have hperm_sort := List.perm_insertionSort
    (fun u v => KnockoutScores.beats mp lp v u = false) (mp.map Prod.fst)
  have hrank_inj : ∀ u ∈ mp.map Prod.fst, ∀ v ∈ mp.map Prod.fst,
      KnockoutScores.resolvedRank mp lp u =
        KnockoutScores.resolvedRank mp lp v → u = v := by
    intro u hu v hv hr
    by_contra hne
    rcases KnockoutScores.beats_total (hinj u hu v hv hne) with hb | hb
    · exact absurd hr
        (Nat.ne_of_lt (KnockoutScores.resolvedRank_lt_of_beats hu hb))
    · exact absurd hr.symm
        (Nat.ne_of_lt (KnockoutScores.resolvedRank_lt_of_beats hv hb))
  have hmap_nodup : ((mp.map Prod.fst).map
      (KnockoutScores.resolvedRank mp lp)).Nodup :=
    List.Nodup.map_on hrank_inj hnd
  have hsubset : ((mp.map Prod.fst).map
      (KnockoutScores.resolvedRank mp lp)) ⊆ List.range' 1 mp.length := by
    intro r hr
    obtain ⟨t, ht, rfl⟩ := List.mem_map.mp hr
    have h1 : 1 ≤ KnockoutScores.resolvedRank mp lp t :=
      Nat.le_add_right 1 _
    have h2 := @KnockoutScores.resolvedRank_le_length mp lp t ht
    rw [List.mem_range']
    exact ⟨KnockoutScores.resolvedRank mp lp t - 1,
      by omega, by omega⟩
  have hlen : ((mp.map Prod.fst).map
      (KnockoutScores.resolvedRank mp lp)).length = mp.length := by
    simp
  have hperm_range : ((mp.map Prod.fst).map
      (KnockoutScores.resolvedRank mp lp)).Perm (List.range' 1 mp.length) :=
    (List.subperm_of_subset hmap_nodup hsubset).perm_of_length_le
      (by rw [hlen, List.length_range'])
  refine ⟨?_, ?_, ?_⟩
  · have : (KnockoutScores.calculate_ranking mp lp).map Prod.snd =
        (List.insertionSort (fun u v => KnockoutScores.beats mp lp v u = false)
          (mp.map Prod.fst)).map (KnockoutScores.resolvedRank mp lp) := by
      unfold KnockoutScores.calculate_ranking
      rw [List.map_map]
      rfl
    rw [this]
    exact (hperm_sort.map (KnockoutScores.resolvedRank mp lp)).trans hperm_range
  · intro t ht
    have hts : t ∈ List.insertionSort
        (fun u v => KnockoutScores.beats mp lp v u = false)
        (mp.map Prod.fst) := hperm_sort.symm.subset ht
    exact List.mem_map_of_mem (fun t => (t, KnockoutScores.resolvedRank mp lp t)) hts
  · intro u hu v hv hpe hlt
    apply KnockoutScores.resolvedRank_lt_of_beats hu
    simp only [KnockoutScores.beats, Bool.or_eq_true, Bool.and_eq_true,
      decide_eq_true_eq]
    exact Or.inr ⟨hpe, hlt⟩

/-- Witness for C1 at the concrete tie-at-the-top match of
`src/tests/test_knockout_scores.py`: game points `ABC 1, DEF 2, GHI 3.5,
JKL 3.5` (scaled by two here to keep the rationals integral) with league
positions `ABC 1, DEF 2, GHI 3, JKL 4`. -/
theorem knockout_calculate_ranking_bijection_witness :
    ((KnockoutScores.calculate_ranking
        [("ABC", 2), ("DEF", 4), ("GHI", 7), ("JKL", 7)]
        [("ABC", 1), ("DEF", 2), ("GHI", 3), ("JKL", 4)]).map Prod.snd).Perm
      (List.range' 1 4) ∧
    (∀ t ∈ ([("ABC", (2 : Rat)), ("DEF", 4), ("GHI", 7),
        ("JKL", 7)]).map Prod.fst,
      (t, KnockoutScores.resolvedRank
          [("ABC", 2), ("DEF", 4), ("GHI", 7), ("JKL", 7)]
          [("ABC", 1), ("DEF", 2), ("GHI", 3), ("JKL", 4)] t) ∈
        KnockoutScores.calculate_ranking
          [("ABC", 2), ("DEF", 4), ("GHI", 7), ("JKL", 7)]
          [("ABC", 1), ("DEF", 2), ("GHI", 3), ("JKL", 4)]) ∧
    (∀ u ∈ ([("ABC", (2 : Rat)), ("DEF", 4), ("GHI", 7),
        ("JKL", 7)]).map Prod.fst,
      ∀ v ∈ ([("ABC", (2 : Rat)), ("DEF", 4), ("GHI", 7),
        ("JKL", 7)]).map Prod.fst,
      KnockoutScores.pts
          [("ABC", 2), ("DEF", 4), ("GHI", 7), ("JKL", 7)] u =
        KnockoutScores.pts
          [("ABC", 2), ("DEF", 4), ("GHI", 7), ("JKL", 7)] v →
      KnockoutScores.leaguePos
          [("ABC", 1), ("DEF", 2), ("GHI", 3), ("JKL", 4)] u <
        KnockoutScores.leaguePos
          [("ABC", 1), ("DEF", 2), ("GHI", 3), ("JKL", 4)] v →
      KnockoutScores.resolvedRank
          [("ABC", 2), ("DEF", 4), ("GHI", 7), ("JKL", 7)]
          [("ABC", 1), ("DEF", 2), ("GHI", 3), ("JKL", 4)] u <
        KnockoutScores.resolvedRank
          [("ABC", 2), ("DEF", 4), ("GHI", 7), ("JKL", 7)]
          [("ABC", 1), ("DEF", 2), ("GHI", 3), ("JKL", 4)] v) :=
  knockout_calculate_ranking_bijection
    [("ABC", 2), ("DEF", 4), ("GHI", 7), ("JKL", 7)]
    [("ABC", 1), ("DEF", 2), ("GHI", 3), ("JKL", 4)]
    (by decide) (by decide)

/-- Per-team contents of a score artefact (`ScoreTeamData` in
`src/sr/comp/types.py`): the scorer-visible game points plus the
`disqualified` and `present` flags. -/
structure ScoreTeamData where
  score : Int
  disqualified : Bool
  present : Bool
deriving DecidableEq, Repr

/-- A raw score artefact for one match (`ScoreData` in
`src/sr/comp/types.py`). -/
structure ScoreData where
  match_number : Nat
  arena_id : String
  teams : List (String × ScoreTeamData)
deriving DecidableEq, Repr

namespace LeagueScores

/-- Game points extracted by the scorer (the `FakeScorer` of
`src/tests/factories.py` passes each team's `score` entry through). -/
def game_points (sd : ScoreData) : List (String × Int) :=
  sd.teams.map (fun p => (p.1, p.2.score))

/-- Modelled from the spec: a team takes part in the ranking only when it
is present and not disqualified. -/
def eligible (d : ScoreTeamData) : Bool := !d.disqualified && d.present

/-- Modelled from the spec: the shared ranked position of an eligible
team: one more than the number of eligible teams with strictly more game
points. -/
def position (sd : ScoreData) (t : String) (d : ScoreTeamData) : Nat :=
  1 + sd.teams.countP (fun q => eligible q.2 && decide (d.score < q.2.score))

/-- Modelled from the spec: the number of eligible teams tied on game
points with the given team (itself included). -/
def tieSize (sd : ScoreData) (t : String) (d : ScoreTeamData) : Nat :=
  sd.teams.countP (fun q => eligible q.2 && decide (q.2.score = d.score))

/-- Modelled from the spec: the default league-ranker points table for a
match of `nz` zones awards `2 * (nz + 1 - p)` points for position `p`;
tied teams split the points of the positions they span equally. -/
def pointsFor (nz pos g : Nat) : Int :=
  (((List.range g).map
      (fun i => 2 * ((nz : Int) + 1 - ((pos : Int) + (i : Int))))).sum) / g

/-- Modelled from the spec: normalised (ranked) league points of a match:
disqualified and absent teams are ranked last with 0 league points, all
others receive the (tie-split) points of their shared position. -/
def ranked_points (nz : Nat) (sd : ScoreData) : List (String × Int) :=
  sd.teams.map (fun p =>
    if eligible p.2 then
      (p.1, pointsFor nz (position sd p.1 p.2) (tieSize sd p.1 p.2))
    else (p.1, 0))

/-- Modelled from the spec: the aggregated per-team `TeamScore`s: the
elementwise sum over all scored matches of the normalised league points
and the game points. -/
def teams_agg (nz : Nat) (roster : List String) (datas : List ScoreData) :
    List (String × TeamScore) :=
  roster.map (fun t =>
    (t,
      ⟨((datas.map
          (fun sd => ((ranked_points nz sd).lookup t).getD 0)).sum : Int),
        (datas.map
          (fun sd => ((game_points sd).lookup t).getD 0)).sum⟩))

end LeagueScores

/-- C5: for a single league match in a 4-team arena with game points
`JMS 4, PAS 0, RUN 8, ICE 2`, where `JMS` is disqualified and `PAS` is
absent, league scoring gives disqualified and absent teams 0 league points
(in general), yields normalised league points `JMS 0, PAS 0, RUN 8,
ICE 6`, and aggregates per-team scores `JMS (0,4), PAS (0,0), RUN (8,8),
ICE (6,2)`. -/
theorem league_scoring_single_match_scenario :
    (∀ (nz : Nat) (sd : ScoreData), ∀ p ∈ sd.teams,
      LeagueScores.eligible p.2 = false →
        (p.1, 0) ∈ LeagueScores.ranked_points nz sd) ∧
    LeagueScores.game_points
        ⟨123, "A", [("JMS", ⟨4, true, true⟩), ("PAS", ⟨0, false, false⟩),
          ("RUN", ⟨8, false, true⟩), ("ICE", ⟨2, false, true⟩)]⟩ =
      [("JMS", 4), ("PAS", 0), ("RUN", 8), ("ICE", 2)] ∧
    LeagueScores.ranked_points 4
        ⟨123, "A", [("JMS", ⟨4, true, true⟩), ("PAS", ⟨0, false, false⟩),
          ("RUN", ⟨8, false, true⟩), ("ICE", ⟨2, false, true⟩)]⟩ =
      [("JMS", 0), ("PAS", 0), ("RUN", 8), ("ICE", 6)] ∧
    LeagueScores.teams_agg 4 ["JMS", "PAS", "RUN", "ICE"]
        [⟨123, "A", [("JMS", ⟨4, true, true⟩), ("PAS", ⟨0, false, false⟩),
          ("RUN", ⟨8, false, true⟩), ("ICE", ⟨2, false, true⟩)]⟩] =
      [("JMS", ⟨0, 4⟩), ("PAS", ⟨0, 0⟩), ("RUN", ⟨8, 8⟩),
        ("ICE", ⟨6, 2⟩)] := by
  refine ⟨?_, by decide, by decide, by decide⟩
  intro nz sd p hp hel
  unfold LeagueScores.ranked_points
  have : (fun p : String × ScoreTeamData =>
      if LeagueScores.eligible p.2 then
        (p.1, LeagueScores.pointsFor nz (LeagueScores.position sd p.1 p.2)
          (LeagueScores.tieSize sd p.1 p.2))
      else (p.1, 0)) p = (p.1, 0) := by
    simp [hel]
  rw [← this]
  exact List.mem_map_of_mem _ hp

/-- Modelled from the spec: the league walk of `MatchSchedule._build_matches`
(`sr/comp/matches.py`, absent from src/): the clock yields a slot start for
each planned match in order (stopping silently when the period is out of
time); just before emitting a match whose number carries extra spacing and
whose slot does not open the period, the clock is advanced by that spacing
and the slot start refreshed; behaviour pinned by the `test_extra_spacing_*`
cases of `src/tests/test_matches.py`. -/
def buildLeagueSlots (period : PeriodTimes) (slot : Int)
    (spacing : List (Nat × Int)) :
    List Nat → MatchPeriodClock → List (Nat × Int)
  | [], _ => []
  | n :: rest, clock =>
    match clock.current_time with
    | .error _ => []
    | .ok start =>
      match spacing.lookup n with
      | some extra =>
        if start = period.start_time then
          (n, start) ::
            buildLeagueSlots period slot spacing rest (clock.advance_time slot)
        else
          let c2 := clock.advance_time extra
          (n, c2.cursor) ::
            buildLeagueSlots period slot spacing rest (c2.advance_time slot)
      | none =>
        (n, start) ::
          buildLeagueSlots period slot spacing rest (clock.advance_time slot)

/-- Modelled from the spec: start times of the league matches: walk the
plan from a fresh clock over the league period. -/
def leagueStartTimes (period : PeriodTimes) (delays : List Delay)
    (slot : Int) (spacing : List (Nat × Int)) (plan : List Nat) :
    List (Nat × Int) :=
  buildLeagueSlots period slot spacing plan (MatchPeriodClock.init period delays)

/-- C4 counterexample: in the schedule of
`src/tests/test_matches.py` (`test_extra_spacing_no_delays`: period opening
13:00:00 = 46800s, 5-minute slots, extra spacing of 30s on match 1, no
delays), match 1 — a listed match — starts at 13:05:30 = 47130s, not at its
unspaced start 13:05:00 = 47100s: the extra gap precedes the listed match
instead of following it, so the claim's assertion that the listed matches'
own start times are unchanged is false. -/
theorem extra_spacing_claim_counterexample :
    leagueStartTimes ⟨46800, 63000, 63600⟩ [] 300 [(1, 30)] [0, 1, 2] =
      [(0, 46800), (1, 47130), (2, 47430)] ∧
    leagueStartTimes ⟨46800, 63000, 63600⟩ [] 300 [] [0, 1, 2] =
      [(0, 46800), (1, 47100), (2, 47400)] ∧
    ¬ (47130 : Int) = 47100 :=
  ⟨by decide, by decide, by decide⟩

/-- C4 (amended): for each configured extra-spacing entry the schedule
calls `advance(extra)` immediately before emitting each match whose number
is in the entry's set (unless that match opens its period), so the extra
gap is inserted between the preceding match and the listed match, shifting
the listed match and all later matches; an entry covering the
period-opening match leaves every start time unchanged.  Concretely:
spacing 30s on match 1 gives starts 13:00:00, 13:05:30, 13:10:30, while
spacing 30s on match 0 gives 13:00:00, 13:05:00, 13:10:00. -/
theorem extra_spacing_before_listed_match :
    leagueStartTimes ⟨46800, 63000, 63600⟩ [] 300 [(1, 30)] [0, 1, 2] =
      [(0, 46800), (1, 47130), (2, 47430)] ∧
    leagueStartTimes ⟨46800, 63000, 63600⟩ [] 300 [(0, 30)] [0, 1, 2] =
      [(0, 46800), (1, 47100), (2, 47400)] :=
  ⟨by decide, by decide⟩

/-- Configuration of the automatic knockout scheduler
(`src/sr/comp/knockout_scheduler/automatic_scheduler.py`): the spacing
added between rounds, the extra delay before the final, and the
single-arena restriction. -/
structure KnockoutConfig where
  round_spacing : Int
  final_delay : Int
  single_arena_rounds : Nat
  single_arena_arenas : List String
deriving DecidableEq, Repr

/-- Translation of `KnockoutScheduler._add_round_of_matches`
(`src/sr/comp/knockout_scheduler/automatic_scheduler.py`): while matches
remain, read the clock for the slot start, place up to one match per
arena from the queue, then advance the clock by the match duration (time
advances even when fewer than all arenas are used).  Only the
timing-relevant structure is kept: the per-match zone-randomising shuffle
permutes a single match's team list and affects neither match numbers nor
start times.  The first component collects each emitted slot's start
time. -/
def addRoundSlots (duration : Int) (arenaCount : Nat) :
    Nat → Nat → MatchPeriodClock →
      Except OutOfTimeException (List Int × MatchPeriodClock)
  | 0, _, clock => .ok ([], clock)
  | _, 0, clock => .ok ([], clock)
  | fuel + 1, remaining + 1, clock =>
    match clock.current_time with
    | .error e => .error e
    | .ok start =>
      let emitted := min (max arenaCount 1) (remaining + 1)
      match addRoundSlots duration arenaCount fuel (remaining + 1 - emitted)
          (clock.advance_time duration) with
      | .error e => .error e
      | .ok (rest, clock2) => .ok (start :: rest, clock2)

/-- Floor base-2 logarithm by structural recursion on a fuel bound
(`int(math.log(n, 2))` of `KnockoutScheduler.get_rounds_remaining`). -/
def log2fl : Nat → Nat → Nat
  | 0, _ => 0
  | fuel + 1, n => if n ≤ 1 then 0 else 1 + log2fl fuel (n / 2)

/-- Translation of the round loop of `KnockoutScheduler._add_knockouts`
(`src/sr/comp/knockout_scheduler/automatic_scheduler.py`): while the last
round holds more than one match, advance the clock by `round_spacing`,
restrict to the single-arena set once few enough rounds remain, advance
additionally by `final_delay` when the next round is the final, and emit
the next round of half as many matches. -/
def knockoutRoundsLoop (cfg : KnockoutConfig) (allArenas : List String)
    (duration : Int) :
    Nat → Nat → MatchPeriodClock →
      Except OutOfTimeException (List (List Int))
  | 0, _, _ => .ok []
  | fuel + 1, lastCount, clock =>
    if lastCount ≤ 1 then .ok []
    else
      let clock := clock.advance_time cfg.round_spacing
      let rr := log2fl lastCount lastCount
      let arenaCount :=
        if rr ≤ cfg.single_arena_rounds then cfg.single_arena_arenas.length
        else allArenas.length
      let clock :=
        if lastCount = 2 then clock.advance_time cfg.final_delay else clock
      let newCount := (lastCount + 1) / 2
      match addRoundSlots duration arenaCount newCount newCount clock with
      | .error e => .error e
      | .ok (starts, clock2) =>
        match knockoutRoundsLoop cfg allArenas duration fuel newCount clock2 with
        | .error e => .error e
        | .ok rest => .ok (starts :: rest)

/-- Translation of `KnockoutScheduler._add_knockouts` together with
`_add_first_round` (`src/sr/comp/knockout_scheduler/automatic_scheduler.py`):
the first round seeds `arity / 4` four-team matches (the reverse-bracket
seeding of `knockout_scheduler/seeding.py`, absent from src/, produces one
match per four seeds), then rounds are emitted until a single match
remains; the result is the per-round list of slot start times. -/
def addKnockoutsSlots (cfg : KnockoutConfig) (allArenas : List String)
    (duration : Int) (arity : Nat) (clock : MatchPeriodClock) :
    Except OutOfTimeException (List (List Int)) :=
  let m0 := arity / 4
  match addRoundSlots duration allArenas.length m0 m0 clock with
  | .error e => .error e
  | .ok (starts, clock2) =>
    match knockoutRoundsLoop cfg allArenas duration m0 m0 clock2 with
    | .error e => .error e
    | .ok rest => .ok (starts :: rest)

/-- C6: an automatic knockout with 16 seeds, a single arena, a period
starting 13:00 (= 46800s, ending 17:30 = 63000s), `round_spacing` 30s,
`final_delay` 12s and 5-minute matches advances the clock by
`round_spacing` between rounds and additionally by `final_delay` before
the final, giving quarter-final starts 13:00:00, 13:05:00, 13:10:00,
13:15:00, semi-final starts 13:20:30 and 13:25:30, and a final start of
13:31:12. -/
theorem knockout_scheduler_timings_no_delays :
    addKnockoutsSlots ⟨30, 12, 3, ["A"]⟩ ["A"] 300 16
        (MatchPeriodClock.init ⟨46800, 63000, 63000⟩ []) =
      .ok [[46800, 47100, 47400, 47700], [48030, 48330], [48672]] := by
  decide
